import Mathlib

/-!
Verification of the G.711 companding codec in
`src/utils/libEasyCapture/G711/EzG711.c` (easyrtmp).

The six scalar transforms (`ALawEncode_S`, `ALawDecode_S`, `ULawEncode_S`,
`ULawDecode_S`, `ALawToULaw_S`, `ULawToALaw_S`) are shallowly embedded as
functions on `Int` (16-bit linear PCM samples, value range -32768..32767)
and `Nat` (companded bytes, value range 0..255).  The C `uint8_t` returns
are modelled by a final `&&& 0xff`; negative 16-bit samples are
ones'-complemented (`~p` = `-p - 1`) exactly as the C does, after which all
magnitude arithmetic is on `Nat`.  The buffer wrappers are embedded as
functions on `List`s together with the returned element counts.
-/

set_option maxRecDepth 10000

/-! ## Range-checking infrastructure

`chkT f fuel lo n` checks `f` on the interval `[lo, lo + n)` by balanced
splitting, so that kernel evaluation only needs stack depth `O(fuel)`.
-/

def chkT (f : Nat → Bool) : Nat → Nat → Nat → Bool
  | 0, _, n => n == 0
  | fuel + 1, lo, n =>
    if n == 0 then true
    else if n == 1 then f lo
    else chkT f fuel lo (n / 2) && chkT f fuel (lo + n / 2) (n - n / 2)

theorem chkT_spec (f : Nat → Bool) :
    ∀ fuel lo n, chkT f fuel lo n = true → ∀ m, lo ≤ m → m < lo + n → f m = true := by
  intro fuel
  induction fuel with
  | zero =>
    intro lo n h m h1 h2
    have : n = 0 := by simpa [chkT] using h
    omega
  | succ k ih =>
    intro lo n h m h1 h2
    by_cases h0 : n = 0
    · omega
    · by_cases hone : n = 1
      · have hf : f lo = true := by simpa [chkT, h0, hone] using h
        have hm : m = lo := by omega
        rw [hm]; exact hf
      · have h' : chkT f k lo (n / 2) = true ∧ chkT f k (lo + n / 2) (n - n / 2) = true := by
          simpa [chkT, h0, hone, Bool.and_eq_true] using h
        by_cases hm : m < lo + n / 2
        · exact ih lo (n / 2) h'.1 m h1 hm
        · exact ih (lo + n / 2) (n - n / 2) h'.2 m (by omega) (by omega)

/-- Monotonicity on a `Nat` interval from monotonicity on adjacent points. -/
theorem monoIntOfAdj (g : Nat → Int) (lo N : Nat)
    (h : ∀ k, lo ≤ k → k + 1 ≤ N → g k ≤ g (k + 1)) :
    ∀ b a, lo ≤ a → a ≤ b → b ≤ N → g a ≤ g b := by
  intro b
  induction b with
  | zero =>
    intro a _ hab _
    have ha0 : a = 0 := Nat.le_zero.mp hab
    rw [ha0]
  | succ k ih =>
    intro a ha hab hbN
    by_cases hak : a = k + 1
    · rw [hak]
    · have hak' : a ≤ k := by omega
      exact le_trans (ih a ha hak' (by omega)) (h k (by omega) hbN)

/-! ## A-law scalar encode (EzG711.c lines 47-90)

`alawLadder` is the segment/interval ladder of lines 66-87 applied to the
already right-shifted magnitude `p` (line 66 `p >>= 4` is done by the
caller); it returns the value the C code adds to the sign bits, namely the
accumulated segment bits plus the final interval `p`.  `ALawEncode_S`
chooses the sign exactly as lines 51-63 do (`~p = -p - 1` for negative
input) and applies the final `^ 0x55` and the `uint8_t` truncation of
line 89. -/

def alawLadder (p : Nat) : Nat :=
  if 0x20 ≤ p then
    let pc : Nat × Nat := if 0x100 ≤ p then (p >>> 4, 0x40) else (p, 0)
    let pd : Nat × Nat := if 0x40 ≤ pc.1 then (pc.1 >>> 2, pc.2 + 0x20) else pc
    let pe : Nat × Nat := if 0x20 ≤ pd.1 then (pd.1 >>> 1, pd.2 + 0x10) else pd
    pe.2 + pe.1
  else p

def ALawEncode_S (pcm16 : Int) : Nat :=
  if pcm16 < 0 then
    ((0x00 + alawLadder ((-pcm16 - 1).toNat >>> 4)) ^^^ 0x55) &&& 0xff
  else
    ((0x80 + alawLadder (pcm16.toNat >>> 4)) ^^^ 0x55) &&& 0xff

/-! ## A-law scalar decode (EzG711.c lines 97-121) -/

def ALawDecode_S (alaw0 : Nat) : Int :=
  let alaw := alaw0 ^^^ 0x55
  let sign := alaw &&& 0x80
  let linear0 := ((alaw &&& 0x1f) <<< 4) + 8
  let alaw1 := alaw &&& 0x7f
  let linear1 :=
    if 0x20 ≤ alaw1 then (linear0 ||| 0x100) <<< ((alaw1 >>> 4) - 1)
    else linear0
  if sign = 0 then -(linear1 : Int) else (linear1 : Int)

/-! ## μ-law scalar encode (EzG711.c lines 123-169)

`ulawLadder` is the segment ladder of lines 149-163 (input is the biased,
clipped, 3-right-shifted magnitude); it returns the final interval and the
accumulated XOR'd segment bits.  `ulawFold` is line 166's `u ^= p` applied
to the ladder output, `uClip` is lines 142-145 (`p += 0x84` and the clip to
`0x7f00`), and `ULawEncode_S` combines them with the pre-seeded sign
constants of lines 134/139 and the `uint8_t` return. -/

def ulawLadder (p : Nat) : Nat × Nat :=
  let pc : Nat × Nat := if 0x100 ≤ p then (p >>> 4, 0x40) else (p, 0)
  let pd : Nat × Nat := if 0x40 ≤ pc.1 then (pc.1 >>> 2, pc.2 ^^^ 0x20) else pc
  if 0x20 ≤ pd.1 then (pd.1 >>> 1, pd.2 ^^^ 0x10) else pd

def ulawFold (p : Nat) : Nat :=
  (ulawLadder p).2 ^^^ (ulawLadder p).1

def uClip (m : Nat) : Nat :=
  if 0x7f00 < m + 0x84 then 0x7f00 else m + 0x84

def uMagPipe (m : Nat) : Nat :=
  ulawFold (uClip m >>> 3)

def ULawEncode_S (pcm16 : Int) : Nat :=
  if pcm16 < 0 then
    ((0x80 ^^^ 0x10 ^^^ 0xff) ^^^ uMagPipe ((-pcm16 - 1).toNat)) &&& 0xff
  else
    ((0x00 ^^^ 0x10 ^^^ 0xff) ^^^ uMagPipe (pcm16.toNat)) &&& 0xff

/-! ## μ-law scalar decode (EzG711.c lines 172-193) -/

def ULawDecode_S (ulaw0 : Nat) : Int :=
  let ulaw := ulaw0 ^^^ 0xff
  let linear0 := ((ulaw &&& 0x0f) <<< 3) ||| 0x84
  let shift := (ulaw >>> 4) &&& 7
  let linear1 : Int := ((linear0 <<< shift : Nat) : Int) - 0x84
  if ulaw &&& 0x80 ≠ 0 then -linear1 else linear1

/-! ## Direct conversions (EzG711.c lines 195-242) -/

def ALawToULaw_S (alaw0 : Nat) : Nat :=
  let sign := alaw0 &&& 0x80
  let alaw := (alaw0 ^^^ sign) ^^^ 0x55
  let ulaw :=
    if alaw < 45 then
      if alaw < 24 then (if alaw < 8 then (alaw <<< 1) + 1 else alaw + 8)
      else (if alaw < 32 then (alaw >>> 1) + 20 else alaw + 4)
    else
      if alaw < 63 then (if alaw < 47 then alaw + 3 else alaw + 2)
      else (if alaw < 79 then alaw + 1 else alaw)
  ((ulaw ^^^ sign) ^^^ 0x7f) &&& 0xff

def ULawToALaw_S (ulaw0 : Nat) : Nat :=
  let sign := ulaw0 &&& 0x80
  let ulaw := (ulaw0 ^^^ sign) ^^^ 0x7f
  let alaw :=
    if ulaw < 48 then
      if ulaw ≤ 32 then (if ulaw ≤ 15 then ulaw >>> 1 else ulaw - 8)
      else (if ulaw ≤ 35 then (ulaw <<< 1) - 40 else ulaw - 4)
    else
      if ulaw ≤ 63 then (if ulaw = 48 then ulaw - 3 else ulaw - 2)
      else (if ulaw ≤ 79 then ulaw - 1 else ulaw)
  ((alaw ^^^ sign) ^^^ 0x55) &&& 0xff

/-! ## Buffer wrappers (EzG711.c lines 244-295)

A source buffer is a `List` of its elements; `srcSize` is the C byte count.
The C functions write their outputs through raw pointers and return an
element (or byte) count; here each wrapper returns the written list
together with the returned count.  The decode wrappers store through an
`int16_t*`, so the stored value is the two's-complement narrowing
`toInt16` of the scalar decoder's `int` result. -/

def toInt16 (v : Int) : Int := (v + 0x8000) % 0x10000 - 0x8000

def ALawEncode (src : List Int) (srcSize : Nat) : List Nat × Nat :=
  let n := srcSize >>> 1
  ((src.take n).map ALawEncode_S, n)

def ALawDecode (src : List Nat) (srcSize : Nat) : List Int × Nat :=
  ((src.take srcSize).map (fun b => toInt16 (ALawDecode_S b)), srcSize <<< 1)

def ULawEncode (src : List Int) (srcSize : Nat) : List Nat × Nat :=
  let n := srcSize >>> 1
  ((src.take n).map ULawEncode_S, n)

def ULawDecode (src : List Nat) (srcSize : Nat) : List Int × Nat :=
  ((src.take srcSize).map (fun b => toInt16 (ULawDecode_S b)), srcSize <<< 1)

def ALawToULaw (src : List Nat) (srcSize : Nat) : List Nat × Nat :=
  ((src.take srcSize).map ALawToULaw_S, srcSize)

def ULawToALaw (src : List Nat) (srcSize : Nat) : List Nat × Nat :=
  ((src.take srcSize).map ULawToALaw_S, srcSize)

/-! ## C1: A-law byte round trip -/

theorem alaw_roundtrip_aux :
    ∀ b, b < 256 → ALawEncode_S (ALawDecode_S b) = b := by
  have h := chkT_spec (fun b => decide (ALawEncode_S (ALawDecode_S b) = b)) 16 0 256 (by decide!)
  intro b hb
  exact of_decide_eq_true (h b (Nat.zero_le b) (by omega))

/-- C1: for every byte `b` in `[0,255]`, A-law re-encoding of the decoded
value returns the original byte: `ALawEncode_S (ALawDecode_S b) = b`. -/
theorem C1_alaw_roundtrip : ∀ b : Nat, b < 256 → ALawEncode_S (ALawDecode_S b) = b :=
  alaw_roundtrip_aux

/-- Witness for C1 at `b = 213` (the A-law code of linear 0). -/
theorem C1_alaw_roundtrip_witness :
    (213 : Nat) < 256 ∧ ALawEncode_S (ALawDecode_S 213) = 213 :=
  ⟨by decide, C1_alaw_roundtrip 213 (by decide)⟩

/-! ## C2: μ-law byte round trip (fails at the negative-zero code 0x7f) -/

/-- C2 counterexample: at `b = 127` (μ-law negative zero, which decodes to
linear 0) the re-encoded byte is 255, not 127. -/
theorem C2_counterexample : ULawEncode_S (ULawDecode_S 127) ≠ 127 := by decide

/-- C2 (amended): for every byte `b` in `[0,255]` other than 127, μ-law
re-encoding of the decoded value returns `b`; the exceptional byte 127
decodes to linear 0 and re-encodes as 255, which decodes to the same
linear value. -/
theorem C2_ulaw_roundtrip_amended :
    ∀ b : Nat, b < 256 →
      (b ≠ 127 → ULawEncode_S (ULawDecode_S b) = b) ∧
      (b = 127 → ULawEncode_S (ULawDecode_S b) = 255 ∧ ULawDecode_S 255 = ULawDecode_S b) := by
  have h := chkT_spec
    (fun b => decide
      ((b ≠ 127 → ULawEncode_S (ULawDecode_S b) = b) ∧
       (b = 127 → ULawEncode_S (ULawDecode_S b) = 255 ∧ ULawDecode_S 255 = ULawDecode_S b)))
    16 0 256 (by decide!)
  intro b hb
  exact of_decide_eq_true (h b (Nat.zero_le b) (by omega))

/-- Witness for the amended C2 at `b = 0`. -/
theorem C2_ulaw_roundtrip_amended_witness :
    (0 : Nat) < 256 ∧ (0 : Nat) ≠ 127 ∧ ULawEncode_S (ULawDecode_S 0) = 0 :=
  ⟨by decide, by decide, (C2_ulaw_roundtrip_amended 0 (by decide)).1 (by decide)⟩

/-! ## C3 and C9: buffer wrapper size laws -/

theorem shiftRight1_eq (n : Nat) : n >>> 1 = n / 2 := by
  rw [Nat.shiftRight_eq_div_pow]

theorem shiftLeft1_eq (n : Nat) : n <<< 1 = 2 * n := by
  rw [Nat.shiftLeft_eq]; omega

/-- C3: `ALawEncode`/`ULawEncode` on `srcSize` source bytes write exactly
`srcSize / 2` companded bytes and return that count; `ALawDecode`/
`ULawDecode` on `srcSize` companded bytes write exactly `srcSize` samples
and return `2 * srcSize` (the output byte count); `ALawToULaw`/`ULawToALaw`
on `srcSize` bytes write `srcSize` bytes and return `srcSize`. -/
theorem C3_buffer_sizes :
    ∀ (pcm : List Int) (bytes : List Nat) (srcSize : Nat),
      (srcSize / 2 ≤ pcm.length →
        (ALawEncode pcm srcSize).1.length = srcSize / 2 ∧
        (ALawEncode pcm srcSize).2 = srcSize / 2 ∧
        (ULawEncode pcm srcSize).1.length = srcSize / 2 ∧
        (ULawEncode pcm srcSize).2 = srcSize / 2) ∧
      (srcSize ≤ bytes.length →
        (ALawDecode bytes srcSize).1.length = srcSize ∧
        (ALawDecode bytes srcSize).2 = 2 * srcSize ∧
        (ULawDecode bytes srcSize).1.length = srcSize ∧
        (ULawDecode bytes srcSize).2 = 2 * srcSize ∧
        (ALawToULaw bytes srcSize).1.length = srcSize ∧
        (ALawToULaw bytes srcSize).2 = srcSize ∧
        (ULawToALaw bytes srcSize).1.length = srcSize ∧
        (ULawToALaw bytes srcSize).2 = srcSize) := by
  intro pcm bytes srcSize
  constructor
  · intro h
    simp [ALawEncode, ULawEncode, shiftRight1_eq]
    omega
  · intro h
    simp [ALawDecode, ULawDecode, ALawToULaw, ULawToALaw, shiftLeft1_eq]
    omega

/-- Witness for C3 with two samples, two bytes and `srcSize = 2`. -/
theorem C3_buffer_sizes_witness :
    (ALawEncode [(0 : Int), 0] 2).2 = 1 ∧ (ALawDecode [(0 : Nat), 1] 2).2 = 4 :=
  ⟨((C3_buffer_sizes [(0 : Int), 0] [(0 : Nat), 1] 2).1 (by decide)).2.1,
   ((C3_buffer_sizes [(0 : Int), 0] [(0 : Nat), 1] 2).2 (by decide)).2.1⟩

/-- C9: encoding with an odd `srcSize` behaves exactly like `srcSize - 1`:
the element count is `srcSize / 2` rounded down, exactly that many bytes
are written, that count is returned, and the trailing odd source byte is
ignored. -/
theorem C9_odd_encode :
    ∀ (pcm : List Int) (srcSize : Nat), srcSize % 2 = 1 →
      ALawEncode pcm srcSize = ALawEncode pcm (srcSize - 1) ∧
      ULawEncode pcm srcSize = ULawEncode pcm (srcSize - 1) ∧
      (ALawEncode pcm srcSize).2 = srcSize / 2 ∧
      (ULawEncode pcm srcSize).2 = srcSize / 2 ∧
      (srcSize / 2 ≤ pcm.length →
        (ALawEncode pcm srcSize).1.length = srcSize / 2 ∧
        (ULawEncode pcm srcSize).1.length = srcSize / 2) := by
  intro pcm srcSize hodd
  have h2 : srcSize >>> 1 = (srcSize - 1) >>> 1 := by
    rw [shiftRight1_eq, shiftRight1_eq]; omega
  refine ⟨by simp [ALawEncode, h2], by simp [ULawEncode, h2],
    by simp [ALawEncode, shiftRight1_eq], by simp [ULawEncode, shiftRight1_eq], ?_⟩
  intro h
  simp [ALawEncode, ULawEncode, shiftRight1_eq]
  omega

/-- Witness for C9 with one sample and the odd byte count 3. -/
theorem C9_odd_encode_witness :
    (3 : Nat) % 2 = 1 ∧ (ALawEncode [(0 : Int), 5] 3).2 = 1 :=
  ⟨by decide, (C9_odd_encode [(0 : Int), 5] 3 (by decide)).2.2.1⟩

/-! ## C10: decoded values fit in 16 bits -/

theorem decode_range_aux :
    ∀ b, b < 256 →
      (ALawDecode_S b).natAbs ≤ 0x7E00 ∧ (ULawDecode_S b).natAbs ≤ 32124 ∧
      toInt16 (ALawDecode_S b) = ALawDecode_S b ∧ toInt16 (ULawDecode_S b) = ULawDecode_S b := by
  have h := chkT_spec
    (fun b => decide
      ((ALawDecode_S b).natAbs ≤ 0x7E00 ∧ (ULawDecode_S b).natAbs ≤ 32124 ∧
       toInt16 (ALawDecode_S b) = ALawDecode_S b ∧ toInt16 (ULawDecode_S b) = ULawDecode_S b))
    16 0 256 (by decide!)
  intro b hb
  exact of_decide_eq_true (h b (Nat.zero_le b) (by omega))

/-- C10: for every byte `b` in `[0,255]`, `|ALawDecode_S b| ≤ 0x7E00` and
`|ULawDecode_S b| ≤ 32124`, so the decoded value fits a signed 16-bit
sample and the narrowing `int16_t` store in the `ALawDecode`/`ULawDecode`
buffer loops is value-preserving. -/
theorem C10_decode_range :
    ∀ (b : Nat) (bs : List Nat) (n : Nat), b < 256 →
      ((ALawDecode_S b).natAbs ≤ 0x7E00 ∧ (ULawDecode_S b).natAbs ≤ 32124 ∧
       toInt16 (ALawDecode_S b) = ALawDecode_S b ∧ toInt16 (ULawDecode_S b) = ULawDecode_S b) ∧
      ((∀ u ∈ bs, u < 256) →
        (ALawDecode bs n).1 = (bs.take n).map ALawDecode_S ∧
        (ULawDecode bs n).1 = (bs.take n).map ULawDecode_S) := by
  intro b bs n hb
  refine ⟨decode_range_aux b hb, fun hmem => ⟨?_, ?_⟩⟩
  · show (bs.take n).map (fun u => toInt16 (ALawDecode_S u)) = (bs.take n).map ALawDecode_S
    refine List.map_congr_left fun a ha => ?_
    exact (decode_range_aux a (hmem a (List.take_subset n bs ha))).2.2.1
  · show (bs.take n).map (fun u => toInt16 (ULawDecode_S u)) = (bs.take n).map ULawDecode_S
    refine List.map_congr_left fun a ha => ?_
    exact (decode_range_aux a (hmem a (List.take_subset n bs ha))).2.2.2

/-- Witness for C10 at `b = 42` with the buffer `[42]`. -/
theorem C10_decode_range_witness :
    (42 : Nat) < 256 ∧ (ALawDecode_S 42).natAbs ≤ 0x7E00 ∧
      (ALawDecode [42] 1).1 = [ALawDecode_S 42] :=
  ⟨by decide, (C10_decode_range 42 [42] 1 (by decide)).1.1,
   ((C10_decode_range 42 [42] 1 (by decide)).2 (by decide)).1⟩

/-! ## C4: direct A-law to μ-law conversion versus decode-then-encode -/

/-- C4: for every byte `b` in `[0,255]`, the direct conversion
`ALawToULaw_S b` and the composed `ULawEncode_S (ALawDecode_S b)` carry the
same sign bit and their μ-law magnitude codes (the byte with the
transmission inversion removed, sign stripped) differ by at most one
quantization step. -/
theorem C4_direct_vs_composed :
    ∀ b : Nat, b < 256 →
      ALawToULaw_S b &&& 0x80 = ULawEncode_S (ALawDecode_S b) &&& 0x80 ∧
      Nat.dist ((ALawToULaw_S b ^^^ 0xff) &&& 0x7f)
        ((ULawEncode_S (ALawDecode_S b) ^^^ 0xff) &&& 0x7f) ≤ 1 := by
  have h := chkT_spec
    (fun b => decide
      (ALawToULaw_S b &&& 0x80 = ULawEncode_S (ALawDecode_S b) &&& 0x80 ∧
       Nat.dist ((ALawToULaw_S b ^^^ 0xff) &&& 0x7f)
         ((ULawEncode_S (ALawDecode_S b) ^^^ 0xff) &&& 0x7f) ≤ 1))
    16 0 256 (by decide!)
  intro b hb
  exact of_decide_eq_true (h b (Nat.zero_le b) (by omega))

/-- Witness for C4 at `b = 0` (a byte where the two paths differ by one
step). -/
theorem C4_direct_vs_composed_witness :
    (0 : Nat) < 256 ∧
      Nat.dist ((ALawToULaw_S 0 ^^^ 0xff) &&& 0x7f)
        ((ULawEncode_S (ALawDecode_S 0) ^^^ 0xff) &&& 0x7f) ≤ 1 :=
  ⟨by decide, (C4_direct_vs_composed 0 (by decide)).2⟩

/-! ## C8: the chained direct conversions stay within one step -/

/-- C8: for every byte `b` in `[0,255]`, `ULawToALaw_S (ALawToULaw_S b)`
carries the same sign bit as `b` and its A-law magnitude code differs from
that of `b` by at most one quantization step (so the decoded magnitudes lie
in the same or an adjacent quantization bucket). -/
theorem C8_chain_within_one_step :
    ∀ b : Nat, b < 256 →
      ULawToALaw_S (ALawToULaw_S b) &&& 0x80 = b &&& 0x80 ∧
      Nat.dist ((ULawToALaw_S (ALawToULaw_S b) ^^^ 0x55) &&& 0x7f)
        ((b ^^^ 0x55) &&& 0x7f) ≤ 1 := by
  have h := chkT_spec
    (fun b => decide
      (ULawToALaw_S (ALawToULaw_S b) &&& 0x80 = b &&& 0x80 ∧
       Nat.dist ((ULawToALaw_S (ALawToULaw_S b) ^^^ 0x55) &&& 0x7f)
         ((b ^^^ 0x55) &&& 0x7f) ≤ 1))
    16 0 256 (by decide!)
  intro b hb
  exact of_decide_eq_true (h b (Nat.zero_le b) (by omega))

/-- Witness for C8 at `b = 26` (a byte the chain does not map to itself). -/
theorem C8_chain_within_one_step_witness :
    (26 : Nat) < 256 ∧
      Nat.dist ((ULawToALaw_S (ALawToULaw_S 26) ^^^ 0x55) &&& 0x7f)
        ((26 ^^^ 0x55) &&& 0x7f) ≤ 1 :=
  ⟨by decide, (C8_chain_within_one_step 26 (by decide)).2⟩

/-! ## Magnitude-pipeline lemmas for the encoders -/

theorem shiftRight4_eq (n : Nat) : n >>> 4 = n / 16 := by
  rw [Nat.shiftRight_eq_div_pow]

theorem shiftRight3_eq (n : Nat) : n >>> 3 = n / 8 := by
  rw [Nat.shiftRight_eq_div_pow]

/-- The A-law segment/interval ladder stays within the 7 magnitude bits. -/
theorem alawLadder_le : ∀ q, q ≤ 2047 → alawLadder q ≤ 0x7f := by
  have h := chkT_spec (fun q => decide (alawLadder q ≤ 0x7f)) 16 0 2048 (by decide!)
  intro q hq
  exact of_decide_eq_true (h q (Nat.zero_le q) (by omega))

/-- Decoding a magnitude code with sign bit 0 gives exactly the negation of
decoding it with sign bit 1 (the byte shapes produced by `ALawEncode_S`). -/
theorem alaw_decode_sign :
    ∀ c, c ≤ 0x7f →
      ALawDecode_S (((0x00 + c) ^^^ 0x55) &&& 0xff) =
        -(ALawDecode_S (((0x80 + c) ^^^ 0x55) &&& 0xff)) := by
  have h := chkT_spec
    (fun c => decide
      (ALawDecode_S (((0x00 + c) ^^^ 0x55) &&& 0xff) =
        -(ALawDecode_S (((0x80 + c) ^^^ 0x55) &&& 0xff))))
    16 0 128 (by decide!)
  intro c hc
  exact of_decide_eq_true (h c (Nat.zero_le c) (by omega))

/-- Ones'-complement sign symmetry of the A-law encode/decode round trip. -/
theorem alaw_sign_symm :
    ∀ x : Int, -32768 ≤ x → x ≤ 32767 →
      ALawDecode_S (ALawEncode_S (-x - 1)) = -(ALawDecode_S (ALawEncode_S x)) := by
  intro x h1 h2
  by_cases hx : x < 0
  · have hq : (-x - 1).toNat >>> 4 ≤ 2047 := by rw [shiftRight4_eq]; omega
    have hc : alawLadder ((-x - 1).toNat >>> 4) ≤ 0x7f := alawLadder_le _ hq
    simp only [ALawEncode_S]
    rw [if_pos hx, if_neg (show ¬(-x - 1 < 0) by omega)]
    have hds := alaw_decode_sign _ hc
    rw [hds, neg_neg]
  · have hq : x.toNat >>> 4 ≤ 2047 := by rw [shiftRight4_eq]; omega
    have hc : alawLadder (x.toNat >>> 4) ≤ 0x7f := alawLadder_le _ hq
    simp only [ALawEncode_S]
    rw [if_neg hx, if_pos (show -x - 1 < 0 by omega)]
    have hxx : -(-x - 1) - 1 = x := by ring
    rw [hxx]
    exact alaw_decode_sign _ hc

/-! ## C5: A-law sign symmetry -/

/-- C5: for every 16-bit linear sample `x`, decoding the A-law encoding of
the ones'-complement negation satisfies
`ALawDecode_S (ALawEncode_S (-x-1)) = -(ALawDecode_S (ALawEncode_S x))`
exactly. -/
theorem C5_alaw_sign_symmetry :
    ∀ x : Int, -32768 ≤ x → x ≤ 32767 →
      ALawDecode_S (ALawEncode_S (-x - 1)) = -(ALawDecode_S (ALawEncode_S x)) :=
  alaw_sign_symm

/-- Witness for C5 at `x = 1234`. -/
theorem C5_alaw_sign_symmetry_witness :
    (-32768 : Int) ≤ 1234 ∧ (1234 : Int) ≤ 32767 ∧
      ALawDecode_S (ALawEncode_S (-(1234 : Int) - 1)) =
        -(ALawDecode_S (ALawEncode_S (1234 : Int))) :=
  ⟨by decide, by decide, C5_alaw_sign_symmetry 1234 (by decide) (by decide)⟩

/-! ## μ-law magnitude-pipeline lemmas -/

theorem uClip_bounds (m : Nat) : 0x84 ≤ uClip m ∧ uClip m ≤ 0x7f00 := by
  unfold uClip; split <;> omega

theorem uClip_mono {m m' : Nat} (h : m ≤ m') : uClip m ≤ uClip m' := by
  unfold uClip; split <;> split <;> omega

/-- The folded μ-law ladder output stays within the 7 magnitude bits on the
reachable inputs (the biased, clipped magnitude shifted right by 3). -/
theorem ulawFold_le : ∀ q, q ≤ 0xfe0 → ulawFold q ≤ 0x7f := by
  have h := chkT_spec (fun q => decide (ulawFold q ≤ 0x7f)) 16 0 0xfe1 (by decide!)
  intro q hq
  exact of_decide_eq_true (h q (Nat.zero_le q) (by omega))

theorem uMagPipe_le (m : Nat) : uMagPipe m ≤ 0x7f := by
  unfold uMagPipe
  refine ulawFold_le _ ?_
  rw [shiftRight3_eq]
  have := uClip_bounds m
  omega

/-- Once the biased magnitude exceeds the clip threshold, the μ-law
magnitude pipeline is the saturated constant `0x6f`. -/
theorem uMagPipe_sat (m : Nat) (h : 0x7f00 < m + 0x84) : uMagPipe m = 0x6f := by
  unfold uMagPipe uClip
  rw [if_pos h]
  decide

/-- Decoding a μ-law magnitude code with the negative pre-seed gives
exactly the negation of decoding it with the positive pre-seed (the byte
shapes produced by `ULawEncode_S`). -/
theorem ulaw_decode_sign :
    ∀ c, c ≤ 0x7f →
      ULawDecode_S (((0x80 ^^^ 0x10 ^^^ 0xff) ^^^ c) &&& 0xff) =
        -(ULawDecode_S (((0x00 ^^^ 0x10 ^^^ 0xff) ^^^ c) &&& 0xff)) := by
  have h := chkT_spec
    (fun c => decide
      (ULawDecode_S (((0x80 ^^^ 0x10 ^^^ 0xff) ^^^ c) &&& 0xff) =
        -(ULawDecode_S (((0x00 ^^^ 0x10 ^^^ 0xff) ^^^ c) &&& 0xff))))
    16 0 128 (by decide!)
  intro c hc
  exact of_decide_eq_true (h c (Nat.zero_le c) (by omega))

/-- Ones'-complement sign symmetry of the μ-law encode/decode round trip. -/
theorem ulaw_sign_symm :
    ∀ x : Int, -32768 ≤ x → x ≤ 32767 →
      ULawDecode_S (ULawEncode_S (-x - 1)) = -(ULawDecode_S (ULawEncode_S x)) := by
  intro x h1 h2
  by_cases hx : x < 0
  · simp only [ULawEncode_S]
    rw [if_pos hx, if_neg (show ¬(-x - 1 < 0) by omega)]
    have hds := ulaw_decode_sign _ (uMagPipe_le ((-x - 1).toNat))
    rw [hds, neg_neg]
  · simp only [ULawEncode_S]
    rw [if_neg hx, if_pos (show -x - 1 < 0 by omega)]
    have hxx : -(-x - 1) - 1 = x := by ring
    rw [hxx]
    exact ulaw_decode_sign _ (uMagPipe_le x.toNat)

/-! ## C7: μ-law silent saturation -/

/-- C7: every 16-bit sample whose ones'-complemented magnitude plus the
bias `0x84` exceeds `0x7f00` encodes to the single maximum-magnitude μ-law
byte of its sign (`0x80` for non-negative, `0x00` for negative); no input
is rejected. -/
theorem C7_ulaw_saturation :
    ∀ x : Int, -32768 ≤ x → x ≤ 32767 →
      0x7f00 < (if x < 0 then -x - 1 else x) + 0x84 →
      ULawEncode_S x = if x < 0 then 0x00 else 0x80 := by
  intro x h1 h2 h3
  by_cases hx : x < 0
  · rw [if_pos hx] at h3
    simp only [ULawEncode_S, if_pos hx]
    have hm : 0x7f00 < (-x - 1).toNat + 0x84 := by omega
    rw [uMagPipe_sat _ hm]
    decide
  · rw [if_neg hx] at h3
    simp only [ULawEncode_S, if_neg hx]
    have hm : 0x7f00 < x.toNat + 0x84 := by omega
    rw [uMagPipe_sat _ hm]
    decide

/-- Witness for C7 at the extreme samples `x = 32767` and `x = -32768`. -/
theorem C7_ulaw_saturation_witness :
    ULawEncode_S 32767 = 0x80 ∧ ULawEncode_S (-32768) = 0x00 := by
  constructor
  · have h := C7_ulaw_saturation 32767 (by decide) (by decide) (by decide)
    simpa using h
  · have h := C7_ulaw_saturation (-32768) (by decide) (by decide) (by decide)
    simpa using h

/-! ## C6: monotonicity of the reconstructed values -/

/-- Reconstruction after A-law encoding of a non-negative sample, as a
function of the right-shifted magnitude `q = m >>> 4`. -/
def alawReconPos (q : Nat) : Int :=
  ALawDecode_S (((0x80 + alawLadder q) ^^^ 0x55) &&& 0xff)

/-- Reconstruction after μ-law encoding of a non-negative sample, as a
function of the biased/clipped/shifted magnitude `q = uClip m >>> 3`. -/
def ulawReconPos (q : Nat) : Int :=
  ULawDecode_S (((0x00 ^^^ 0x10 ^^^ 0xff) ^^^ ulawFold q) &&& 0xff)

theorem alaw_encdec_pos (x : Int) (hx : 0 ≤ x) :
    ALawDecode_S (ALawEncode_S x) = alawReconPos (x.toNat >>> 4) := by
  simp only [ALawEncode_S]
  rw [if_neg (show ¬x < 0 by omega)]
  rfl

theorem ulaw_encdec_pos (x : Int) (hx : 0 ≤ x) :
    ULawDecode_S (ULawEncode_S x) = ulawReconPos (uClip x.toNat >>> 3) := by
  simp only [ULawEncode_S]
  rw [if_neg (show ¬x < 0 by omega)]
  rfl

theorem alawReconPos_adj : ∀ k, k + 1 ≤ 2047 → alawReconPos k ≤ alawReconPos (k + 1) := by
  have h := chkT_spec
    (fun k => decide (alawReconPos k ≤ alawReconPos (k + 1))) 16 0 2047 (by decide!)
  intro k hk
  exact of_decide_eq_true (h k (Nat.zero_le k) (by omega))

theorem ulawReconPos_adj :
    ∀ k, 0x10 ≤ k → k + 1 ≤ 0xfe0 → ulawReconPos k ≤ ulawReconPos (k + 1) := by
  have h := chkT_spec
    (fun k => decide (ulawReconPos k ≤ ulawReconPos (k + 1))) 16 0x10 0xfd0 (by decide!)
  intro k hk1 hk2
  exact of_decide_eq_true (h k hk1 (by omega))

theorem alaw_mono_pos (x y : Int) (hx : 0 ≤ x) (hxy : x ≤ y) (hy : y ≤ 32767) :
    ALawDecode_S (ALawEncode_S x) ≤ ALawDecode_S (ALawEncode_S y) := by
  rw [alaw_encdec_pos x hx, alaw_encdec_pos y (le_trans hx hxy)]
  refine monoIntOfAdj alawReconPos 0 2047 (fun k _ hk => alawReconPos_adj k hk)
    (y.toNat >>> 4) (x.toNat >>> 4) (Nat.zero_le _) ?_ ?_
  · rw [shiftRight4_eq, shiftRight4_eq]
    have : x.toNat ≤ y.toNat := by omega
    exact Nat.div_le_div_right this
  · rw [shiftRight4_eq]
    omega

theorem ulaw_mono_pos (x y : Int) (hx : 0 ≤ x) (hxy : x ≤ y) (hy : y ≤ 32767) :
    ULawDecode_S (ULawEncode_S x) ≤ ULawDecode_S (ULawEncode_S y) := by
  rw [ulaw_encdec_pos x hx, ulaw_encdec_pos y (le_trans hx hxy)]
  refine monoIntOfAdj ulawReconPos 0x10 0xfe0 (fun k hk1 hk2 => ulawReconPos_adj k hk1 hk2)
    (uClip y.toNat >>> 3) (uClip x.toNat >>> 3) ?_ ?_ ?_
  · rw [shiftRight3_eq]
    have := uClip_bounds x.toNat
    omega
  · rw [shiftRight3_eq, shiftRight3_eq]
    have hc : uClip x.toNat ≤ uClip y.toNat := uClip_mono (by omega)
    exact Nat.div_le_div_right hc
  · rw [shiftRight3_eq]
    have := uClip_bounds y.toNat
    omega

/-- C6: for both A-law and μ-law the reconstructed value
`decode (encode x)` is monotone: non-decreasing for `0 ≤ x ≤ y`, and on
the negative half `y ≤ x ≤ -1` the reconstructed value of `x` is at least
that of `y`. -/
theorem C6_reconstruction_monotone :
    ∀ x y : Int, -32768 ≤ x → x ≤ 32767 → -32768 ≤ y → y ≤ 32767 →
      (0 ≤ x → x ≤ y →
        ALawDecode_S (ALawEncode_S x) ≤ ALawDecode_S (ALawEncode_S y) ∧
        ULawDecode_S (ULawEncode_S x) ≤ ULawDecode_S (ULawEncode_S y)) ∧
      (y ≤ x → x ≤ -1 →
        ALawDecode_S (ALawEncode_S y) ≤ ALawDecode_S (ALawEncode_S x) ∧
        ULawDecode_S (ULawEncode_S y) ≤ ULawDecode_S (ULawEncode_S x)) := by
  intro x y hx1 hx2 hy1 hy2
  constructor
  · intro hx0 hxy
    exact ⟨alaw_mono_pos x y hx0 hxy hy2, ulaw_mono_pos x y hx0 hxy hy2⟩
  · intro hyx hxneg
    have hxx : -(-x - 1) - 1 = x := by ring
    have hyy : -(-y - 1) - 1 = y := by ring
    have hax := alaw_sign_symm (-x - 1) (by omega) (by omega)
    rw [hxx] at hax
    have hay := alaw_sign_symm (-y - 1) (by omega) (by omega)
    rw [hyy] at hay
    have hux := ulaw_sign_symm (-x - 1) (by omega) (by omega)
    rw [hxx] at hux
    have huy := ulaw_sign_symm (-y - 1) (by omega) (by omega)
    rw [hyy] at huy
    have hma := alaw_mono_pos (-x - 1) (-y - 1) (by omega) (by omega) (by omega)
    have hmu := ulaw_mono_pos (-x - 1) (-y - 1) (by omega) (by omega) (by omega)
    exact ⟨by omega, by omega⟩

/-- Witness for C6 at `x = 100`, `y = 5000`. -/
theorem C6_reconstruction_monotone_witness :
    ALawDecode_S (ALawEncode_S 100) ≤ ALawDecode_S (ALawEncode_S 5000) ∧
      ULawDecode_S (ULawEncode_S 100) ≤ ULawDecode_S (ULawEncode_S 5000) :=
  (C6_reconstruction_monotone 100 5000 (by decide) (by decide) (by decide) (by decide)).1
    (by decide) (by decide)
